import Mathlib

/-!
Verification development for the semantic fact-memory subsystem of the
book_show repository.

The similarity-search engine is embedded from
`src/queries/facts/searchFacts.ts` (`searchFactsQuery`): the SQL query
filters candidate rows by `similarity >= minSimilarity` and, when a cursor
is present, by the keyset predicate
`similarity < lastSimilarity OR (similarity = lastSimilarity AND id < lastId)`;
it orders by `similarity DESC, id DESC`, fetches `LIMIT limit + 1` rows,
truncates to `limit` when `limit + 1` rows arrive, and derives `nextCursor`
from the last retained row.

Similarity values are modelled as rationals.  The per-row similarity is
`simFn` applied to the row's embedding vector; `simFn` is a parameter of the
model standing for the SQL similarity expression (one fixed expression is
used in the WHERE clause, the cursor condition, the ORDER BY and the SELECT
of a single query, so one function models all four occurrences).  Row ids
are a linearly ordered type `ι`; the SQL comparison `f.id < 'lastId'`
compares id strings, which is the instance `ι := String`.  The chapter and
book context columns of the SELECT are projections that play no role in
filtering, ordering or pagination and are not carried by the model.
-/

section SearchModel

variable {ι : Type} [LinearOrder ι]

/-- A candidate row of the search query: a fact joined with the embedding
vector of its cached embedding (`JOIN ai_cached_embedding ace ON
f.embedding_id = ace.id`). -/
structure FactRow (ι : Type) where
  id : ι
  text : String
  vec : List ℚ
deriving DecidableEq

/-- Pagination cursor, from `src/queries/facts/searchFacts.ts`. -/
structure SearchCursor (ι : Type) where
  lastId : ι
  lastSimilarity : ℚ
deriving DecidableEq

/-- A returned search hit (`FactSearchResult` projected to the fields that
take part in ranking and pagination). -/
structure FactSearchResult (ι : Type) where
  id : ι
  text : String
  similarity : ℚ
deriving DecidableEq

/-- Result of one search page, from `src/queries/facts/searchFacts.ts`. -/
structure SearchFactsResult (ι : Type) where
  facts : List (FactSearchResult ι)
  nextCursor : Option (SearchCursor ι)
deriving DecidableEq

/-- Sort key of a row: the pair (similarity, id) with lexicographic order.
The query orders by `similarity DESC, f.id DESC`, i.e. descending by this
key. -/
def rowKey (simFn : List ℚ → ℚ) (r : FactRow ι) : Lex (ℚ × ι) :=
  toLex (simFn r.vec, r.id)

/-- The WHERE clause `similarity >= minSimilarity`. -/
def matchesMin (simFn : List ℚ → ℚ) (minSimilarity : ℚ) (r : FactRow ι) : Bool :=
  decide (minSimilarity ≤ simFn r.vec)

/-- The keyset cursor condition: with a cursor, keep a row iff
`similarity < lastSimilarity OR (similarity = lastSimilarity AND id < lastId)`;
with no cursor every row is kept. -/
def matchesCursor (simFn : List ℚ → ℚ) (cursor : Option (SearchCursor ι))
    (r : FactRow ι) : Bool :=
  match cursor with
  | none => true
  | some c =>
      decide (simFn r.vec < c.lastSimilarity) ||
        (decide (simFn r.vec = c.lastSimilarity) && decide (r.id < c.lastId))

/-- The filtered candidate set of the query (its full WHERE clause). -/
def filteredRows (simFn : List ℚ → ℚ) (rows : List (FactRow ι))
    (minSimilarity : ℚ) (cursor : Option (SearchCursor ι)) : List (FactRow ι) :=
  rows.filter (fun r => matchesMin simFn minSimilarity r && matchesCursor simFn cursor r)

/-- The ordering relation of `ORDER BY similarity DESC, f.id DESC`:
row `a` may precede row `b` iff the key of `b` is at most the key of `a`. -/
def sortRel (simFn : List ℚ → ℚ) (a b : FactRow ι) : Prop :=
  rowKey simFn b ≤ rowKey simFn a

instance (simFn : List ℚ → ℚ) : DecidableRel (@sortRel ι _ simFn) :=
  fun a b => inferInstanceAs (Decidable (rowKey simFn b ≤ rowKey simFn a))

/-- Strict form of the ordering: row `a` strictly precedes row `b`.  Rows
with pairwise-distinct ids are always strictly ordered. -/
def strictRel (simFn : List ℚ → ℚ) (a b : FactRow ι) : Prop :=
  rowKey simFn b < rowKey simFn a

/-- The filtered candidate rows in the order produced by the query. -/
def sortedRows (simFn : List ℚ → ℚ) (rows : List (FactRow ι))
    (minSimilarity : ℚ) (cursor : Option (SearchCursor ι)) : List (FactRow ι) :=
  List.insertionSort (sortRel simFn) (filteredRows simFn rows minSimilarity cursor)

/-- Projection of a retained row to the returned record; the SELECT computes
the similarity with the same expression used for filtering and ordering. -/
def formatRow (simFn : List ℚ → ℚ) (r : FactRow ι) : FactSearchResult ι :=
  ⟨r.id, r.text, simFn r.vec⟩

/-- Embedding of `searchFactsQuery` from `src/queries/facts/searchFacts.ts`:
filter, order, fetch `limit + 1` rows, truncate to `limit` when more than
`limit` rows arrived, and derive `nextCursor` from the last retained row
when the page is full and nonempty. -/
def searchFactsQuery (simFn : List ℚ → ℚ) (rows : List (FactRow ι))
    (minSimilarity : ℚ) (limit : ℕ) (cursor : Option (SearchCursor ι)) :
    SearchFactsResult ι :=
  let results := (sortedRows simFn rows minSimilarity cursor).take (limit + 1)
  let hasMore := decide (limit < results.length)
  let facts := if hasMore then results.take limit else results
  let nextCursor : Option (SearchCursor ι) :=
    if hasMore && !facts.isEmpty then
      facts.getLast?.map (fun lastFact => ⟨lastFact.id, simFn lastFact.vec⟩)
    else
      none
  ⟨facts.map (formatRow simFn), nextCursor⟩

/-- One round of cursor-driven pagination: request a page, then follow
`nextCursor` while it is present.  `fuel` bounds the number of requests. -/
def collectPages (simFn : List ℚ → ℚ) (rows : List (FactRow ι))
    (minSimilarity : ℚ) (limit : ℕ) :
    ℕ → Option (SearchCursor ι) → List (FactSearchResult ι)
  | 0, _ => []
  | fuel + 1, cursor =>
      let res := searchFactsQuery simFn rows minSimilarity limit cursor
      res.facts ++
        (match res.nextCursor with
         | none => []
         | some c => collectPages simFn rows minSimilarity limit fuel (some c))

/-- Concatenation of all pages, starting with no cursor and following each
page's `nextCursor`.  `rows.length + 1` requests always suffice. -/
def collectAllPages (simFn : List ℚ → ℚ) (rows : List (FactRow ι))
    (minSimilarity : ℚ) (limit : ℕ) : List (FactSearchResult ι) :=
  collectPages simFn rows minSimilarity limit (rows.length + 1) none

end SearchModel



/-!
The fact store and the reconciliation engine, embedded from
`src/ai/memory.ts` and the query files under `src/queries/facts/`.

State is a `DB` value holding the fact rows and the embedding-cache rows;
fresh row ids are drawn from counters (standing for the unique identifiers
the database generates).  Fallible operations return `Except String`;
`memory.ts` wraps caught errors in fixed messages, which the model
reproduces.  The external embedding service and the SQL similarity
expression live in an `Env` parameter.
-/

section MemoryModel

/-- A `fact` row: id, text, reference to one cached embedding, owning
chapter, optional page number. -/
structure fact where
  id : ℕ
  text : String
  embedding_id : ℕ
  chapter_id : String
  page_number : Option ℤ
deriving DecidableEq

/-- An `ai_cached_embedding` row: id, exact text key, embedding vector. -/
structure CacheEntry where
  id : ℕ
  text : String
  vec : List ℚ
deriving DecidableEq

/-- The relational store: fact rows, cache rows, and the id supplies. -/
structure DB where
  facts : List fact
  cache : List CacheEntry
  nextFactId : ℕ
  nextCacheId : ℕ
deriving DecidableEq

/-- A resolved embedding as carried by the code (`TextEmbedding`): the
text, its vector, and the id of the cache row that holds the vector. -/
structure TextEmbedding where
  text : String
  vec : List ℚ
  cachedEmbeddingId : ℕ
deriving DecidableEq

/-- External collaborators and failure switches: the embedding service
(which may fail), the SQL similarity expression (query vector and row
vector to similarity), and whether the raw search query errors. -/
structure Env where
  embedVec : String → Except String (List ℚ)
  sim : List ℚ → List ℚ → ℚ
  searchDbFails : Bool

/-- Well-formed store: fact ids are pairwise distinct and all ids sit
below the corresponding counters. -/
def DB.WF (db : DB) : Prop :=
  (db.facts.map fact.id).Nodup ∧
    (∀ f ∈ db.facts, f.id < db.nextFactId ∧ f.embedding_id < db.nextCacheId) ∧
    (∀ e ∈ db.cache, e.id < db.nextCacheId)

/-- Whitespace test used by JavaScript `String.prototype.trim`: the
ECMAScript WhiteSpace and LineTerminator sets — tab, vertical tab, form
feed, space, no-break space, zero-width no-break space (U+FEFF), the
Unicode Space_Separator characters (U+1680, U+2000..U+200A, U+202F,
U+205F, U+3000), and the line terminators LF, CR, U+2028, U+2029. -/
def isJsWhitespace (c : Char) : Bool :=
  c.val = 0x0009 || c.val = 0x000A || c.val = 0x000B || c.val = 0x000C ||
    c.val = 0x000D || c.val = 0x0020 || c.val = 0x00A0 || c.val = 0x1680 ||
    (0x2000 ≤ c.val && c.val ≤ 0x200A) || c.val = 0x2028 || c.val = 0x2029 ||
    c.val = 0x202F || c.val = 0x205F || c.val = 0x3000 || c.val = 0xFEFF

/-- Model of JavaScript `String.prototype.trim`: drop leading and trailing
whitespace. -/
def strTrim (s : String) : String :=
  ⟨((s.data.dropWhile isJsWhitespace).reverse.dropWhile isJsWhitespace).reverse⟩

/-- Embedding of `getFacts` from `src/queries/facts/getFacts.ts`: all facts
of the chapter, restricted to the given texts when the text list is
nonempty (`texts && texts.length > 0`). -/
def getFacts (db : DB) (chapterId : String) (texts : List String) : List fact :=
  db.facts.filter (fun f =>
    f.chapter_id = chapterId && (texts.isEmpty || texts.contains f.text))

/-- Rows created by `createMany` in `addFactsQuery`: one fact per resolved
embedding, in order, with consecutive fresh ids. -/
def createFacts (startId : ℕ) (chapterId : String) :
    List TextEmbedding → List fact
  | [] => []
  | e :: es =>
      ⟨startId, e.text, e.cachedEmbeddingId, chapterId, none⟩ ::
        createFacts (startId + 1) chapterId es

/-- Embedding of `addFactsQuery` from `src/queries/facts/addFacts.ts`. -/
def addFactsQuery (db : DB) (chapterId : String)
    (embeddings : List TextEmbedding) : DB :=
  { db with
    facts := db.facts ++ createFacts db.nextFactId chapterId embeddings
    nextFactId := db.nextFactId + embeddings.length }

/-- Embedding of `addFactQuery` from `src/queries/facts/addFacts.ts`:
create one fact bound to the resolved embedding, returning it. -/
def addFactQuery (db : DB) (chapterId : String) (embedding : TextEmbedding) :
    fact × DB :=
  let f : fact :=
    ⟨db.nextFactId, embedding.text, embedding.cachedEmbeddingId, chapterId, none⟩
  (f, { db with facts := db.facts ++ [f], nextFactId := db.nextFactId + 1 })

/-- Embedding of `updateFactQuery` from `src/queries/facts/updateFact.ts`:
update the row matching `id` and `chapter_id`, replacing text and embedding
reference; erroring when no row matches. -/
def updateFactQuery (db : DB) (factId : ℕ) (chapterId : String)
    (text : String) (embeddingId : ℕ) : Except String (fact × DB) :=
  match db.facts.find? (fun f => f.id = factId && f.chapter_id = chapterId) with
  | none => .error "Record to update not found"
  | some old =>
      let updated : fact := { old with text := text, embedding_id := embeddingId }
      .ok (updated,
        { db with
          facts := db.facts.map (fun g =>
            if g.id = factId && g.chapter_id = chapterId then updated else g) })

/-- Embedding of `deleteFactQuery` from `src/queries/facts/deleteFact.ts`. -/
def deleteFactQuery (db : DB) (factId : ℕ) (chapterId : String) :
    Except String (fact × DB) :=
  match db.facts.find? (fun f => f.id = factId && f.chapter_id = chapterId) with
  | none => .error "Record to delete does not exist"
  | some f =>
      .ok (f,
        { db with
          facts := db.facts.filter (fun g =>
            !(g.id = factId && g.chapter_id = chapterId)) })

/-- Embedding of `getCachedEmbedding` from `src/flows/chapterProcessor.ts`:
`SELECT ... FROM ai_cached_embedding WHERE text = $text LIMIT 1` — the
first cache row whose text equals the query text exactly. -/
def getCachedEmbedding (cache : List CacheEntry) (text : String) :
    Option CacheEntry :=
  cache.find? (fun e => e.text = text)

/-- Modelled from the spec: `getEmbeddings` lives in `src/ai/embeddings.ts`,
which is not part of the source snapshot (only its callers are).  Per
spec sections 4.1 and 4.2 it resolves a text to an embedding by exact-match
cache lookup, computing the vector and inserting a new cache row on a
miss. -/
def getEmbeddings (env : Env) (db : DB) (text : String) :
    Except String (TextEmbedding × DB) :=
  match db.cache.find? (fun e => e.text = text) with
  | some e => .ok (⟨text, e.vec, e.id⟩, db)
  | none =>
      match env.embedVec text with
      | .error msg => .error msg
      | .ok v =>
          .ok (⟨text, v, db.nextCacheId⟩,
            { db with
              cache := db.cache ++ [⟨db.nextCacheId, text, v⟩]
              nextCacheId := db.nextCacheId + 1 })

/-- Modelled from the spec: the batch form `getManyEmbeddings` of
`src/ai/embeddings.ts` (not in the snapshot) resolves each text through the
cache, computing and inserting on each miss; any service failure aborts the
batch. -/
def getManyEmbeddings (env : Env) : DB → List String →
    Except String (List TextEmbedding × DB)
  | db, [] => .ok ([], db)
  | db, t :: ts =>
      match getEmbeddings env db t with
      | .error e => .error e
      | .ok (emb, db1) =>
          match getManyEmbeddings env db1 ts with
          | .error e => .error e
          | .ok (embs, db2) => .ok (emb :: embs, db2)

/-- The candidate rows seen by the search query on a store: each fact
joined with its cache row (`JOIN ai_cached_embedding ace ON
f.embedding_id = ace.id`). -/
def joinRows (db : DB) : List (FactRow ℕ) :=
  db.facts.filterMap (fun f =>
    (db.cache.find? (fun e => e.id = f.embedding_id)).map
      (fun e => ⟨f.id, f.text, e.vec⟩))

/-- The raw search query as issued against the store: it may fail (the
read-path database failure switch), otherwise it is `searchFactsQuery` over
the joined rows with the similarity expression fixed by the query
vector. -/
def searchFactsQueryE (env : Env) (db : DB) (searchEmbedding : TextEmbedding)
    (minSimilarity : ℚ) (limit : ℕ) (cursor : Option (SearchCursor ℕ)) :
    Except String (SearchFactsResult ℕ) :=
  if env.searchDbFails then .error "query failed"
  else
    .ok (searchFactsQuery (env.sim searchEmbedding.vec) (joinRows db)
      minSimilarity limit cursor)

/-- Embedding of `memory.addFacts` from `src/ai/memory.ts`: early return on
an empty list; otherwise resolve all embeddings, insert one fact per text,
and return the chapter's facts having those texts; any caught failure is
rethrown as a fixed error. -/
def addFacts (env : Env) (db : DB) (chapterId : String) (facts : List String) :
    Except String (List fact × DB) :=
  if facts.length = 0 then .ok ([], db)
  else
    match getManyEmbeddings env db facts with
    | .error _ => .error "Failed to add facts to chapter"
    | .ok (embeddings, db1) =>
        let db2 := addFactsQuery db1 chapterId embeddings
        .ok (getFacts db2 chapterId facts, db2)

/-- Embedding of `memory.addFact` from `src/ai/memory.ts`: trim the text,
resolve its embedding, insert one fact. -/
def addFact (env : Env) (db : DB) (chapterId : String) (factText : String) :
    Except String (fact × DB) :=
  match getEmbeddings env db (strTrim factText) with
  | .error _ => .error "Failed to add fact to chapter"
  | .ok (embedding, db1) => .ok (addFactQuery db1 chapterId embedding)

/-- Embedding of `memory.searchFacts` from `src/ai/memory.ts`: an absent or
empty topic lists nothing; otherwise the topic is embedded and the raw
query run; every failure is caught and surfaced as an empty result page. -/
def searchFacts (env : Env) (db : DB) (searchTopic : Option String)
    (similarity : ℚ) (limit : ℕ) (cursor : Option (SearchCursor ℕ)) :
    SearchFactsResult ℕ × DB :=
  match searchTopic with
  | none => (⟨[], none⟩, db)
  | some topic =>
      if topic = "" then (⟨[], none⟩, db)
      else
        match getEmbeddings env db topic with
        | .error _ => (⟨[], none⟩, db)
        | .ok (searchEmbedding, db1) =>
            match searchFactsQueryE env db1 searchEmbedding similarity limit
                cursor with
            | .error _ => (⟨[], none⟩, db1)
            | .ok res => (res, db1)

/-- Embedding of `memory.deleteFacts` from `src/ai/memory.ts`: delete the
listed facts one by one through `deleteFactQuery`; failures propagate. -/
def deleteFacts (chapterId : String) : DB → List ℕ → Except String DB
  | db, [] => .ok db
  | db, i :: is =>
      match deleteFactQuery db i chapterId with
      | .error e => .error e
      | .ok (_, db1) => deleteFacts chapterId db1 is

/-- Embedding of `memory.updateFact` from `src/ai/memory.ts`: trim the new
text, resolve its embedding, and update the row; caught failures are
rethrown as a fixed error. -/
def updateFact (env : Env) (db : DB) (chapterId : String) (factId : ℕ)
    (newText : String) : Except String (fact × DB) :=
  match getEmbeddings env db (strTrim newText) with
  | .error _ => .error "Failed to update fact"
  | .ok (embedding, db1) =>
      match updateFactQuery db1 factId chapterId (strTrim newText)
          embedding.cachedEmbeddingId with
      | .error _ => .error "Failed to update fact"
      | .ok out => .ok out

/-- Embedding of `memory.updateFacts` from `src/ai/memory.ts`: update the
given (id, text) pairs sequentially, collecting the updated facts. -/
def updateFacts (env : Env) (chapterId : String) : DB → List (ℕ × String) →
    Except String (List fact × DB)
  | db, [] => .ok ([], db)
  | db, (i, t) :: rest =>
      match updateFact env db chapterId i t with
      | .error e => .error e
      | .ok (f, db1) =>
          match updateFacts env chapterId db1 rest with
          | .error e => .error e
          | .ok (fs, db2) => .ok (f :: fs, db2)

/-- The `newFacts` partition computed by `upsertFacts`: desired texts for
which no fetched fact has that exact text. -/
def newFactsOf (db : DB) (chapterId : String) (facts : List String) :
    List String :=
  facts.filter (fun t =>
    !((getFacts db chapterId facts).any (fun f => f.text = t)))

/-- The `updatedFacts` partition computed by `upsertFacts`: desired texts
already carried by some fetched fact. -/
def updatedFactsOf (db : DB) (chapterId : String) (facts : List String) :
    List String :=
  facts.filter (fun t =>
    (getFacts db chapterId facts).any (fun f => f.text = t))

/-- The `deletedFacts` partition computed by `upsertFacts`: fetched facts
whose text is not among the desired texts. -/
def deletedFactsOf (db : DB) (chapterId : String) (facts : List String) :
    List fact :=
  (getFacts db chapterId facts).filter (fun f => !(facts.contains f.text))

/-- Embedding of `memory.upsertFacts` from `src/ai/memory.ts`: early return
on an empty desired list; otherwise fetch the chapter's facts restricted to
the desired texts, partition, insert the new texts, re-update the fetched
facts whose text is desired, and, when `withDelete`, delete the
`deletedFacts` partition. -/
def upsertFacts (env : Env) (db : DB) (chapterId : String)
    (facts : List String) (withDelete : Bool) :
    Except String (List fact × DB) :=
  if facts.length = 0 then .ok ([], db)
  else
    let fetchedFacts := getFacts db chapterId facts
    let updatedFacts := updatedFactsOf db chapterId facts
    match addFacts env db chapterId (newFactsOf db chapterId facts) with
    | .error e => .error e
    | .ok (newlyAddedFacts, db1) =>
        match updateFacts env chapterId db1
            ((fetchedFacts.filter (fun f => updatedFacts.contains f.text)).map
              (fun f => (f.id, f.text))) with
        | .error e => .error e
        | .ok (justUpdatedFacts, db2) =>
            if withDelete then
              match deleteFacts chapterId db2
                  ((deletedFactsOf db chapterId facts).map fact.id) with
              | .error e => .error e
              | .ok db3 => .ok (newlyAddedFacts ++ justUpdatedFacts, db3)
            else .ok (newlyAddedFacts ++ justUpdatedFacts, db2)

/-- Embedding of `memory.findSimilarFacts` from `src/ai/memory.ts`. -/
def findSimilarFacts (env : Env) (db : DB) (factText : String)
    (similarity : ℚ) (limit : ℕ) : SearchFactsResult ℕ × DB :=
  searchFacts env db (some factText) similarity limit none

/-- Embedding of `memory.factExists` from `src/ai/memory.ts`: at least one
hit of `findSimilarFacts` with the given threshold and limit 1. -/
def factExists (env : Env) (db : DB) (factText : String) (similarity : ℚ) :
    Bool × DB :=
  let res := findSimilarFacts env db factText similarity 1
  (!res.1.facts.isEmpty, res.2)

/-- Embedding of `memory.addFactIfNew` from `src/ai/memory.ts`: suppress
the insertion (returning nothing) when `factExists` with the caller's
threshold reports a match, otherwise insert through `addFact`. -/
def addFactIfNew (env : Env) (db : DB) (chapterId : String)
    (factText : String) (similarity : ℚ) : Except String (Option fact × DB) :=
  let ex := factExists env db factText similarity
  if ex.1 then .ok (none, ex.2)
  else
    match addFact env ex.2 chapterId factText with
    | .error e => .error e
    | .ok (f, db2) => .ok (some f, db2)

end MemoryModel

section Fixtures

/-- A healthy environment for concrete runs: embeddings always succeed,
the similarity expression is constant, the query never fails. -/
def envOk : Env :=
  ⟨fun _ => .ok [], fun _ _ => 0, false⟩

end Fixtures

/-!
Structural lemmas about the search engine: the sorted candidate list, the
action of the keyset cursor on it, and the shape of a returned page.
-/

section SearchLemmas

variable {ι : Type} [LinearOrder ι] (simFn : List ℚ → ℚ)

omit [LinearOrder ι] in
theorem rowKey_inj {a b : FactRow ι}
    (h : rowKey simFn a = rowKey simFn b) : a.id = b.id := by
  have h2 := congrArg (fun x => (ofLex x).2) h
  simpa [rowKey] using h2

theorem sortedRows_perm (rows : List (FactRow ι)) (m : ℚ)
    (c : Option (SearchCursor ι)) :
    (sortedRows simFn rows m c).Perm (filteredRows simFn rows m c) :=
  List.perm_insertionSort _ _

theorem sortedRows_sorted (rows : List (FactRow ι)) (m : ℚ)
    (c : Option (SearchCursor ι)) :
    List.Sorted (sortRel simFn) (sortedRows simFn rows m c) := by
  haveI : IsTotal (FactRow ι) (sortRel simFn) :=
    ⟨fun a b => le_total (rowKey simFn b) (rowKey simFn a)⟩
  haveI : IsTrans (FactRow ι) (sortRel simFn) :=
    ⟨fun _ _ _ h1 h2 => le_trans h2 h1⟩
  exact List.sorted_insertionSort _ _

theorem sorted_strict_of_nodup {l : List (FactRow ι)}
    (hs : List.Sorted (sortRel simFn) l) (hnd : (l.map FactRow.id).Nodup) :
    List.Sorted (strictRel simFn) l := by
  have hne : l.Pairwise (fun a b => a.id ≠ b.id) := List.pairwise_map.mp hnd
  refine (hs.and hne).imp ?_
  intro a b h
  exact lt_of_le_of_ne h.1 (fun he => h.2 (rowKey_inj simFn he).symm)

theorem sortedRows_nodup_id {rows : List (FactRow ι)}
    (hnd : (rows.map FactRow.id).Nodup) (m : ℚ) (c : Option (SearchCursor ι)) :
    ((sortedRows simFn rows m c).map FactRow.id).Nodup := by
  have h1 : (filteredRows simFn rows m c).Sublist rows := List.filter_sublist _
  have h2 : ((filteredRows simFn rows m c).map FactRow.id).Nodup :=
    (h1.map FactRow.id).nodup hnd
  exact ((sortedRows_perm simFn rows m c).map FactRow.id).nodup_iff.mpr h2

theorem sortedRows_sorted_strict {rows : List (FactRow ι)}
    (hnd : (rows.map FactRow.id).Nodup) (m : ℚ) (c : Option (SearchCursor ι)) :
    List.Sorted (strictRel simFn) (sortedRows simFn rows m c) :=
  sorted_strict_of_nodup simFn (sortedRows_sorted simFn rows m c)
    (sortedRows_nodup_id simFn hnd m c)

theorem matchesCursor_rowKey (x r : FactRow ι) :
    matchesCursor simFn (some ⟨x.id, simFn x.vec⟩) r =
      decide (rowKey simFn r < rowKey simFn x) := by
  rw [Bool.eq_iff_iff]
  simp [matchesCursor, rowKey, Prod.Lex.lt_iff]

theorem filter_rowKey_lt (x : FactRow ι) :
    ∀ l₁ l₂ : List (FactRow ι),
      List.Sorted (strictRel simFn) (l₁ ++ x :: l₂) →
      (l₁ ++ x :: l₂).filter (fun r => decide (rowKey simFn r < rowKey simFn x)) = l₂
  | [], l₂, hs => by
      simp only [List.nil_append, List.filter_cons]
      rw [if_neg (by simp)]
      refine List.filter_eq_self.mpr ?_
      intro a ha
      have h := (List.pairwise_cons.mp hs).1 a ha
      simpa [strictRel] using h
  | b :: l₁, l₂, hs => by
      rw [List.cons_append] at hs ⊢
      rw [List.filter_cons]
      have hbx : strictRel simFn b x :=
        (List.pairwise_cons.mp hs).1 x (by simp)
      have hnot : ¬ rowKey simFn b < rowKey simFn x := lt_asymm hbx
      rw [if_neg (by simpa using hnot)]
      exact filter_rowKey_lt x l₁ l₂ (List.pairwise_cons.mp hs).2

theorem filteredRows_some (rows : List (FactRow ι)) (m : ℚ) (c : SearchCursor ι) :
    filteredRows simFn rows m (some c) =
      (filteredRows simFn rows m none).filter (matchesCursor simFn (some c)) := by
  unfold filteredRows
  rw [List.filter_filter]
  refine List.filter_congr ?_
  intro r _
  simp only [matchesCursor, Bool.and_true]
  rw [Bool.and_comm]

theorem sortedRows_cursor_suffix {rows : List (FactRow ι)}
    (hnd : (rows.map FactRow.id).Nodup) (m : ℚ)
    {l₁ l₂ : List (FactRow ι)} {x : FactRow ι}
    (hL : sortedRows simFn rows m none = l₁ ++ x :: l₂) :
    sortedRows simFn rows m (some ⟨x.id, simFn x.vec⟩) = l₂ := by
  have hstrictL : List.Sorted (strictRel simFn) (l₁ ++ x :: l₂) :=
    hL ▸ sortedRows_sorted_strict simFn hnd m none
  have hfe : (sortedRows simFn rows m none).filter
      (matchesCursor simFn (some ⟨x.id, simFn x.vec⟩)) = l₂ := by
    rw [hL, List.filter_congr (fun r _ => matchesCursor_rowKey simFn x r)]
    exact filter_rowKey_lt simFn x l₁ l₂ hstrictL
  have hperm : (sortedRows simFn rows m (some ⟨x.id, simFn x.vec⟩)).Perm l₂ := by
    have hp1 := sortedRows_perm simFn rows m (some ⟨x.id, simFn x.vec⟩)
    rw [filteredRows_some simFn rows m] at hp1
    have hp3 := ((sortedRows_perm simFn rows m none).symm.filter
      (matchesCursor simFn (some ⟨x.id, simFn x.vec⟩)))
    rw [hfe] at hp3
    exact hp1.trans hp3
  have hs1 : List.Sorted (strictRel simFn)
      (sortedRows simFn rows m (some ⟨x.id, simFn x.vec⟩)) :=
    sortedRows_sorted_strict simFn hnd m _
  have hs2 : List.Sorted (strictRel simFn) l₂ := by
    have hsub : l₂.Sublist (l₁ ++ x :: l₂) :=
      (List.sublist_cons_self x l₂).trans (List.sublist_append_right l₁ (x :: l₂))
    exact List.Pairwise.sublist hsub hstrictL
  haveI : IsAntisymm (FactRow ι) (strictRel simFn) :=
    ⟨fun _ _ h1 h2 => absurd h1 (lt_asymm h2)⟩
  exact List.eq_of_perm_of_sorted hperm hs1 hs2

theorem searchFactsQuery_facts (rows : List (FactRow ι)) (m : ℚ) (limit : ℕ)
    (c : Option (SearchCursor ι)) :
    (searchFactsQuery simFn rows m limit c).facts =
      ((sortedRows simFn rows m c).take limit).map (formatRow simFn) := by
  unfold searchFactsQuery
  simp only []
  by_cases h : limit < ((sortedRows simFn rows m c).take (limit + 1)).length
  · rw [if_pos (decide_eq_true h), List.take_take]
    congr 2
    exact min_eq_left (Nat.le_succ limit)
  · rw [if_neg (by simpa using h)]
    have hlen : (sortedRows simFn rows m c).length ≤ limit := by
      rw [List.length_take] at h
      omega
    rw [List.take_of_length_le hlen, List.take_of_length_le (hlen.trans (Nat.le_succ _))]

theorem searchFactsQuery_nextCursor_of_le (rows : List (FactRow ι)) (m : ℚ)
    (limit : ℕ) (c : Option (SearchCursor ι))
    (h : (sortedRows simFn rows m c).length ≤ limit) :
    (searchFactsQuery simFn rows m limit c).nextCursor = none := by
  unfold searchFactsQuery
  simp only []
  have hlen : ¬ limit < ((sortedRows simFn rows m c).take (limit + 1)).length := by
    rw [List.length_take]
    omega
  rw [if_neg]
  rw [Bool.and_eq_true]
  intro hand
  exact absurd (of_decide_eq_true hand.1) hlen

theorem searchFactsQuery_nextCursor_of_lt (rows : List (FactRow ι)) (m : ℚ)
    (limit : ℕ) (c : Option (SearchCursor ι)) (hl : 1 ≤ limit)
    (h : limit < (sortedRows simFn rows m c).length) :
    (searchFactsQuery simFn rows m limit c).nextCursor =
      ((sortedRows simFn rows m c).take limit).getLast?.map
        (fun lastFact => (⟨lastFact.id, simFn lastFact.vec⟩ : SearchCursor ι)) := by
  unfold searchFactsQuery
  simp only []
  have hlen : limit < ((sortedRows simFn rows m c).take (limit + 1)).length := by
    rw [List.length_take]
    omega
  rw [if_pos (decide_eq_true hlen)]
  have hne : ((sortedRows simFn rows m c).take (limit + 1)).take limit ≠ [] := by
    intro hnil
    have h3 := congrArg List.length hnil
    rw [List.take_take, List.length_take] at h3
    simp only [List.length_nil] at h3
    omega
  rw [if_pos]
  · rw [List.take_take, min_eq_left (Nat.le_succ limit)]
  · rw [decide_eq_true hlen, List.isEmpty_eq_false.mpr hne]
    rfl

end SearchLemmas

section PaginationLemmas

variable {ι : Type} [LinearOrder ι] (simFn : List ℚ → ℚ)

theorem mem_sortedRows_none (rows : List (FactRow ι)) (m : ℚ) (r : FactRow ι) :
    r ∈ sortedRows simFn rows m none ↔ (r ∈ rows ∧ m ≤ simFn r.vec) := by
  rw [(sortedRows_perm simFn rows m none).mem_iff]
  unfold filteredRows
  rw [List.mem_filter]
  simp [matchesMin, matchesCursor]

theorem mem_filteredRows_cursor (rows : List (FactRow ι)) (m : ℚ)
    (c : SearchCursor ι) (r : FactRow ι) :
    r ∈ filteredRows simFn rows m (some c) ↔
      r ∈ rows ∧ m ≤ simFn r.vec ∧
        (simFn r.vec < c.lastSimilarity ∨
          (simFn r.vec = c.lastSimilarity ∧ r.id < c.lastId)) := by
  unfold filteredRows
  rw [List.mem_filter]
  simp [matchesMin, matchesCursor, and_assoc]

theorem collectPages_eq {rows : List (FactRow ι)} {m : ℚ} {limit : ℕ}
    (hl : 1 ≤ limit) (hnd : (rows.map FactRow.id).Nodup) :
    ∀ (fuel : ℕ) (c : Option (SearchCursor ι)) (l₁ M : List (FactRow ι)),
      sortedRows simFn rows m c = M →
      l₁ ++ M = sortedRows simFn rows m none →
      M.length < fuel →
      collectPages simFn rows m limit fuel c = M.map (formatRow simFn) := by
  intro fuel
  induction fuel with
  | zero => intro c l₁ M _ _ hlt; omega
  | succ n ih =>
      intro c l₁ M hM hsuf hlt
      simp only [collectPages]
      rw [searchFactsQuery_facts, hM]
      by_cases hcase : M.length ≤ limit
      · have hcur := searchFactsQuery_nextCursor_of_le simFn rows m limit c
          (by rw [hM]; exact hcase)
        rw [hcur]
        simp only [List.append_nil]
        rw [List.take_of_length_le hcase]
      · have hgt : limit < M.length := Nat.lt_of_not_le hcase
        have hcur := searchFactsQuery_nextCursor_of_lt simFn rows m limit c hl
          (by rw [hM]; exact hgt)
        rw [hM] at hcur
        have hne : M.take limit ≠ [] := by
          intro h0
          have h1 := congrArg List.length h0
          rw [List.length_take] at h1
          simp only [List.length_nil] at h1
          omega
        rw [List.getLast?_eq_getLast _ hne, Option.map_some'] at hcur
        rw [hcur]
        have hdecomp : sortedRows simFn rows m none =
            (l₁ ++ (M.take limit).dropLast) ++
              (M.take limit).getLast hne :: M.drop limit := by
          rw [← hsuf]
          calc l₁ ++ M = l₁ ++ (M.take limit ++ M.drop limit) := by
                rw [List.take_append_drop]
            _ = l₁ ++ (((M.take limit).dropLast ++ [(M.take limit).getLast hne]) ++
                  M.drop limit) := by
                rw [List.dropLast_append_getLast hne]
            _ = (l₁ ++ (M.take limit).dropLast) ++
                  (M.take limit).getLast hne :: M.drop limit := by
                simp [List.append_assoc]
        have hnextS : sortedRows simFn rows m
            (some ⟨((M.take limit).getLast hne).id,
              simFn ((M.take limit).getLast hne).vec⟩) = M.drop limit :=
          sortedRows_cursor_suffix simFn hnd m hdecomp
        dsimp only
        rw [ih _ (l₁ ++ (M.take limit).dropLast ++
            [(M.take limit).getLast hne]) (M.drop limit) hnextS ?_ ?_]
        · rw [← List.map_append, List.take_append_drop]
        · rw [hdecomp]
          simp [List.append_assoc]
        · rw [List.length_drop]
          omega

end PaginationLemmas

/-!
Claims C2, C3, C4 — the similarity search engine.
-/

section SearchClaims

variable {ι : Type} [LinearOrder ι]

/-- C2, counterexample to the claim as stated: with page size 0 and one
matching fact, the concatenation of all pages is empty although a fact with
similarity above the threshold exists — the claim fails for page size 0. -/
theorem c2_limit_zero_counterexample :
    collectAllPages (fun v => v.headD 0) [(⟨1, "a", [1]⟩ : FactRow ℕ)] 0 0 = [] ∧
      (⟨1, "a", [1]⟩ : FactRow ℕ) ∈ [(⟨1, "a", [1]⟩ : FactRow ℕ)] ∧
      (0 : ℚ) ≤ (fun v : List ℚ => v.headD 0) [1] := by
  decide

/-- C2 (amended: any page size of at least 1): for a fixed fact set with
pairwise-distinct ids and a fixed query vector, concatenating the pages
obtained by repeatedly passing each page's nextCursor yields exactly the
facts with similarity at least minSimilarity (the boundary included), in
strictly decreasing (similarity, id) order, with no duplicates and no
omissions. -/
theorem c2_pagination_completeness (simFn : List ℚ → ℚ)
    (rows : List (FactRow ι)) (minSimilarity : ℚ) (limit : ℕ)
    (hl : 1 ≤ limit) (hnd : (rows.map FactRow.id).Nodup) :
    collectAllPages simFn rows minSimilarity limit =
        (sortedRows simFn rows minSimilarity none).map (formatRow simFn) ∧
      (∀ h, h ∈ collectAllPages simFn rows minSimilarity limit ↔
        ∃ r ∈ rows, minSimilarity ≤ simFn r.vec ∧ h = formatRow simFn r) ∧
      (collectAllPages simFn rows minSimilarity limit).Pairwise
        (fun a b => b.similarity < a.similarity ∨
          (b.similarity = a.similarity ∧ b.id < a.id)) ∧
      (collectAllPages simFn rows minSimilarity limit).Nodup := by
  have hlen : (sortedRows simFn rows minSimilarity none).length < rows.length + 1 := by
    have h1 := (sortedRows_perm simFn rows minSimilarity none).length_eq
    have h2 := List.length_filter_le
      (fun r => matchesMin simFn minSimilarity r && matchesCursor simFn none r) rows
    unfold filteredRows at h1
    omega
  have hmain : collectAllPages simFn rows minSimilarity limit =
      (sortedRows simFn rows minSimilarity none).map (formatRow simFn) :=
    collectPages_eq simFn hl hnd (rows.length + 1) none []
      (sortedRows simFn rows minSimilarity none) rfl (by simp) hlen
  refine ⟨hmain, ?_, ?_, ?_⟩
  · intro h
    rw [hmain, List.mem_map]
    constructor
    · rintro ⟨r, hr, rfl⟩
      have h2 := (mem_sortedRows_none simFn rows minSimilarity r).mp hr
      exact ⟨r, h2.1, h2.2, rfl⟩
    · rintro ⟨r, hr, hsim, rfl⟩
      exact ⟨r, (mem_sortedRows_none simFn rows minSimilarity r).mpr ⟨hr, hsim⟩, rfl⟩
  · rw [hmain, List.pairwise_map]
    refine (sortedRows_sorted_strict simFn hnd minSimilarity none).imp ?_
    intro a b hab
    have h2 : simFn b.vec < simFn a.vec ∨
        (simFn b.vec = simFn a.vec ∧ b.id < a.id) := by
      simpa [strictRel, rowKey, Prod.Lex.lt_iff] using hab
    simpa [formatRow] using h2
  · rw [hmain]
    have hndS := sortedRows_nodup_id simFn hnd minSimilarity (none : Option (SearchCursor ι))
    refine List.Nodup.map_on ?_ (hndS.of_map FactRow.id)
    intro x hx y hy hxy
    exact List.inj_on_of_nodup_map hndS hx hy (congrArg FactSearchResult.id hxy)

/-- C2 witness: the amended theorem applied at a concrete store: three
facts, page size 2. -/
theorem c2_pagination_completeness_witness :
    collectAllPages (fun v => v.headD 0)
        [(⟨1, "a", [3]⟩ : FactRow ℕ), ⟨2, "b", [5]⟩, ⟨3, "c", [5]⟩] 0 2 =
      [⟨3, "c", 5⟩, ⟨2, "b", 5⟩, ⟨1, "a", 3⟩] := by
  have h := (c2_pagination_completeness (fun v => v.headD 0)
    [(⟨1, "a", [3]⟩ : FactRow ℕ), ⟨2, "b", [5]⟩, ⟨3, "c", [5]⟩] 0 2
    (by decide) (by decide)).1
  rw [h]
  decide

/-- C3: with a cursor (lastId, lastSimilarity), a candidate row enters the
filtered set iff it passes the minimum-similarity bound and the keyset
predicate `sim < lastSim ∨ (sim = lastSim ∧ id < lastId)`; consequently
every returned hit of such a page lies strictly beyond the cursor, so every
row already returned — including ties at lastSimilarity — is excluded. -/
theorem c3_keyset_predicate (simFn : List ℚ → ℚ) (rows : List (FactRow ι))
    (minSimilarity : ℚ) (limit : ℕ) (c : SearchCursor ι) :
    (∀ r, r ∈ filteredRows simFn rows minSimilarity (some c) ↔
        r ∈ rows ∧ minSimilarity ≤ simFn r.vec ∧
          (simFn r.vec < c.lastSimilarity ∨
            (simFn r.vec = c.lastSimilarity ∧ r.id < c.lastId))) ∧
      ∀ h ∈ (searchFactsQuery simFn rows minSimilarity limit (some c)).facts,
        h.similarity < c.lastSimilarity ∨
          (h.similarity = c.lastSimilarity ∧ h.id < c.lastId) := by
  constructor
  · intro r
    exact mem_filteredRows_cursor simFn rows minSimilarity c r
  · intro h hh
    rw [searchFactsQuery_facts] at hh
    rcases List.mem_map.mp hh with ⟨r, hr, rfl⟩
    have hr2 : r ∈ sortedRows simFn rows minSimilarity (some c) :=
      List.mem_of_mem_take hr
    have hr3 : r ∈ filteredRows simFn rows minSimilarity (some c) :=
      (sortedRows_perm simFn rows minSimilarity (some c)).mem_iff.mp hr2
    have h4 := (mem_filteredRows_cursor simFn rows minSimilarity c r).mp hr3
    simpa [formatRow] using h4.2.2

/-- C3 witness: the predicate evaluated at a concrete store and cursor. -/
theorem c3_keyset_predicate_witness :
    (⟨1, "a", [3]⟩ : FactRow ℕ) ∈
        filteredRows (fun v => v.headD 0)
          [(⟨1, "a", [3]⟩ : FactRow ℕ), ⟨2, "b", [5]⟩] 0 (some ⟨2, 5⟩) ↔
      (⟨1, "a", [3]⟩ : FactRow ℕ) ∈
          [(⟨1, "a", [3]⟩ : FactRow ℕ), ⟨2, "b", [5]⟩] ∧
        (0 : ℚ) ≤ (fun v : List ℚ => v.headD 0) [(3 : ℚ)] ∧
        ((fun v : List ℚ => v.headD 0) [(3 : ℚ)] < 5 ∨
          ((fun v : List ℚ => v.headD 0) [(3 : ℚ)] = 5 ∧ (1 : ℕ) < 2)) :=
  (c3_keyset_predicate (fun v => v.headD 0)
    [(⟨1, "a", [3]⟩ : FactRow ℕ), ⟨2, "b", [5]⟩] 0 1 ⟨2, 5⟩).1 ⟨1, "a", [3]⟩

/-- C4, counterexample to the claim as stated: with page size 0 the
returned page is empty, a matching fact exists beyond it, and yet no
nextCursor is produced — the "iff" of the claim fails at limit 0. -/
theorem c4_limit_zero_counterexample :
    (searchFactsQuery (fun v => v.headD 0)
        [(⟨1, "a", [1]⟩ : FactRow ℕ)] 0 0 none).facts = [] ∧
      (searchFactsQuery (fun v => v.headD 0)
        [(⟨1, "a", [1]⟩ : FactRow ℕ)] 0 0 none).nextCursor = none ∧
      0 < (sortedRows (fun v => v.headD 0)
        [(⟨1, "a", [1]⟩ : FactRow ℕ)] 0 none).length := by
  decide

/-- C4 (amended: page size at least 1): the engine fetches `limit + 1`
candidate rows, the returned page holds at most `limit` facts, a nextCursor
is present iff more matching rows exist beyond the returned page, and any
produced cursor carries the (id, similarity) of the last retained row. -/
theorem c4_fetch_and_cursor (simFn : List ℚ → ℚ) (rows : List (FactRow ι))
    (minSimilarity : ℚ) (limit : ℕ) (cursor : Option (SearchCursor ι))
    (hl : 1 ≤ limit) :
    (((sortedRows simFn rows minSimilarity cursor).take (limit + 1)).length =
        min (limit + 1) (sortedRows simFn rows minSimilarity cursor).length) ∧
      ((searchFactsQuery simFn rows minSimilarity limit cursor).facts.length ≤
        limit) ∧
      ((searchFactsQuery simFn rows minSimilarity limit cursor).nextCursor.isSome
        ↔ limit < (sortedRows simFn rows minSimilarity cursor).length) ∧
      (∀ c2, (searchFactsQuery simFn rows minSimilarity limit cursor).nextCursor
          = some c2 →
        ∃ x, ((sortedRows simFn rows minSimilarity cursor).take limit).getLast?
            = some x ∧
          c2.lastId = x.id ∧ c2.lastSimilarity = simFn x.vec) := by
  refine ⟨List.length_take _ _, ?_, ?_, ?_⟩
  · rw [searchFactsQuery_facts, List.length_map, List.length_take]
    omega
  · constructor
    · intro hsome
      by_contra hnot
      rw [searchFactsQuery_nextCursor_of_le simFn rows minSimilarity limit cursor
        (by omega)] at hsome
      simp at hsome
    · intro hlt
      rw [searchFactsQuery_nextCursor_of_lt simFn rows minSimilarity limit cursor
        hl hlt]
      have hne : (sortedRows simFn rows minSimilarity cursor).take limit ≠ [] := by
        intro h0
        have h1 := congrArg List.length h0
        rw [List.length_take] at h1
        simp only [List.length_nil] at h1
        omega
      rw [List.getLast?_eq_getLast _ hne, Option.map_some']
      exact Option.isSome_some
  · intro c2 hc2
    by_cases hlt : limit < (sortedRows simFn rows minSimilarity cursor).length
    · rw [searchFactsQuery_nextCursor_of_lt simFn rows minSimilarity limit cursor
        hl hlt] at hc2
      have hne : (sortedRows simFn rows minSimilarity cursor).take limit ≠ [] := by
        intro h0
        have h1 := congrArg List.length h0
        rw [List.length_take] at h1
        simp only [List.length_nil] at h1
        omega
      rw [List.getLast?_eq_getLast _ hne, Option.map_some'] at hc2
      have hc3 := Option.some.inj hc2
      subst hc3
      exact ⟨((sortedRows simFn rows minSimilarity cursor).take limit).getLast hne,
        List.getLast?_eq_getLast _ hne, rfl, rfl⟩
    · rw [searchFactsQuery_nextCursor_of_le simFn rows minSimilarity limit cursor
        (by omega)] at hc2
      exact absurd hc2 (by simp)

/-- C4 witness: the amended theorem applied at a concrete store with page
size 1: a full page and a cursor derived from its last row. -/
theorem c4_fetch_and_cursor_witness :
    (searchFactsQuery (fun v => v.headD 0)
        [(⟨1, "a", [3]⟩ : FactRow ℕ), ⟨2, "b", [5]⟩] 0 1 none).nextCursor.isSome
      ↔ 1 < (sortedRows (fun v => v.headD 0)
        [(⟨1, "a", [3]⟩ : FactRow ℕ), ⟨2, "b", [5]⟩] 0 none).length :=
  (c4_fetch_and_cursor (fun v => v.headD 0)
    [(⟨1, "a", [3]⟩ : FactRow ℕ), ⟨2, "b", [5]⟩] 0 1 none (by decide)).2.2.1

end SearchClaims

/-!
Claims C9, C10, C1 — cache-key exactness, the empty-upsert no-op, and the
stale-fact deletion scenario.
-/

section CacheAndUpsertClaims

/-- C9: the cache lookup matches only on exact, character-for-character
string equality of the stored text: it returns a row iff some stored row's
text equals the query text exactly, and any returned row is such a row. -/
theorem c9_cache_exact_lookup (cache : List CacheEntry) (text : String) :
    ((getCachedEmbedding cache text).isSome ↔ ∃ e ∈ cache, e.text = text) ∧
      ∀ e, getCachedEmbedding cache text = some e → e ∈ cache ∧ e.text = text := by
  constructor
  · unfold getCachedEmbedding
    rw [List.find?_isSome]
    simp
  · intro e he
    unfold getCachedEmbedding at he
    exact ⟨List.mem_of_find?_eq_some he, by simpa using List.find?_some he⟩

/-- C9 witness: a cache holding only "foo" yields nothing for "Foo" — the
two lookups are independent, with no case folding. -/
theorem c9_cache_exact_lookup_witness :
    ((getCachedEmbedding [(⟨0, "foo", []⟩ : CacheEntry)] "Foo").isSome ↔
      ∃ e ∈ [(⟨0, "foo", []⟩ : CacheEntry)], e.text = "Foo") ∧
      ¬ (getCachedEmbedding [(⟨0, "foo", []⟩ : CacheEntry)] "Foo").isSome := by
  refine ⟨(c9_cache_exact_lookup [⟨0, "foo", []⟩] "Foo").1, ?_⟩
  rw [(c9_cache_exact_lookup [⟨0, "foo", []⟩] "Foo").1]
  decide

/-- C10: upserting an empty desired list returns the empty list at once and
performs no store operation at all, for both values of withDelete: the
returned state is the input state unchanged. -/
theorem c10_upsert_empty_noop (env : Env) (db : DB) (chapterId : String)
    (withDelete : Bool) :
    upsertFacts env db chapterId [] withDelete = .ok ([], db) := rfl

/-- The `deletedFacts` partition of `upsertFacts` is always empty for a
nonempty desired list: the fetch is already restricted to facts whose text
is among the desired texts, so no fetched fact can fail the membership
test.  The stale-deletion branch of `upsertFacts` is thus dead code. -/
theorem deletedFactsOf_eq_nil (db : DB) (chapterId : String)
    (T : List String) (h : T ≠ []) : deletedFactsOf db chapterId T = [] := by
  have hie : T.isEmpty = false := by
    cases T with
    | nil => exact absurd rfl h
    | cons a l => rfl
  unfold deletedFactsOf getFacts
  rw [List.filter_filter]
  refine List.filter_eq_nil_iff.mpr ?_
  intro f _
  cases hc : T.contains f.text <;> simp [hc, hie]

/-- C1: the scenario of the claim, run on the model.  The chapter holds
facts A, B, C; upsert with desired texts B, C, D and withDelete = true
completes, D is inserted, B and C keep their ids and texts — but A is NOT
deleted: the final stored texts are A, B, C, D, because the fetch feeding
the deletion partition is restricted to the desired texts, leaving the
stale fact A invisible to it. -/
theorem c1_stale_fact_not_deleted :
    (upsertFacts envOk
        ⟨[⟨0, "A", 0, "c", none⟩, ⟨1, "B", 1, "c", none⟩, ⟨2, "C", 2, "c", none⟩],
          [⟨0, "A", []⟩, ⟨1, "B", []⟩, ⟨2, "C", []⟩], 3, 3⟩
        "c" ["B", "C", "D"] true).toOption.map
      (fun p => p.2.facts.map fact.text) = some ["A", "B", "C", "D"] := by
  rfl

end CacheAndUpsertClaims

/-!
Claims C7 and C8 — error-handling asymmetry and the update frame.
-/

section ErrorAndUpdateClaims

theorem getEmbeddings_facts {env : Env} {db : DB} {t : String}
    {emb : TextEmbedding} {db1 : DB}
    (h : getEmbeddings env db t = .ok (emb, db1)) :
    db1.facts = db.facts ∧ db1.nextFactId = db.nextFactId := by
  unfold getEmbeddings at h
  cases hf : db.cache.find? (fun e => e.text = t) with
  | some e =>
      rw [hf] at h
      cases h
      exact ⟨rfl, rfl⟩
  | none =>
      rw [hf] at h
      cases hv : env.embedVec t with
      | error msg => rw [hv] at h; cases h
      | ok v =>
          rw [hv] at h
          cases h
          exact ⟨rfl, rfl⟩

/-- C7: every failure of the search read path is swallowed and surfaced as
an empty result page — identical to the result of a query with no matches —
while the write path (adding facts) rethrows upstream failures as an error.
The modelled failure sources are the embedding service and the raw search
query. -/
theorem c7_read_soft_write_loud (env : Env) (db : DB) (topic : String)
    (similarity : ℚ) (limit : ℕ) (cursor : Option (SearchCursor ℕ)) :
    (topic ≠ "" → ∀ e, getEmbeddings env db topic = .error e →
      searchFacts env db (some topic) similarity limit cursor = (⟨[], none⟩, db)) ∧
      (topic ≠ "" → env.searchDbFails = true →
        ∀ emb db1, getEmbeddings env db topic = .ok (emb, db1) →
        searchFacts env db (some topic) similarity limit cursor = (⟨[], none⟩, db1)) ∧
      (∀ chapterId texts e, texts ≠ [] →
        getManyEmbeddings env db texts = .error e →
        addFacts env db chapterId texts = .error "Failed to add facts to chapter") := by
  refine ⟨?_, ?_, ?_⟩
  · intro htopic e herr
    unfold searchFacts
    dsimp only
    rw [if_neg htopic, herr]
  · intro htopic hdb emb db1 hok
    unfold searchFacts
    dsimp only
    rw [if_neg htopic, hok]
    dsimp only
    unfold searchFactsQueryE
    rw [if_pos hdb]
  · intro chapterId texts e htexts herr
    unfold addFacts
    rw [if_neg (fun h0 => htexts (List.eq_nil_of_length_eq_zero h0)), herr]

/-- C7 witness: with the embedding service down and the query failing, a
concrete search yields the empty page while a concrete insert errors. -/
theorem c7_read_soft_write_loud_witness :
    searchFacts ⟨fun _ => .error "down", fun _ _ => 0, true⟩ ⟨[], [], 0, 0⟩
        (some "q") 0 10 none = (⟨[], none⟩, ⟨[], [], 0, 0⟩) ∧
      addFacts ⟨fun _ => .error "down", fun _ _ => 0, true⟩ ⟨[], [], 0, 0⟩
        "c" ["t"] = .error "Failed to add facts to chapter" := by
  constructor
  · exact (c7_read_soft_write_loud ⟨fun _ => .error "down", fun _ _ => 0, true⟩
      ⟨[], [], 0, 0⟩ "q" 0 10 none).1 (by decide) "down" rfl
  · exact (c7_read_soft_write_loud ⟨fun _ => .error "down", fun _ _ => 0, true⟩
      ⟨[], [], 0, 0⟩ "q" 0 10 none).2.2 "c" ["t"] "down" (by decide) rfl

/-- C8, counterexample to the claim as stated: `memory.updateFact` trims
the new text before resolving its embedding.  With cache rows for both
"x" and "x ", updating a fact to the text "x " rebinds its embedding
reference to the row for "x" (id 0), not to the embedding resolved for the
given newText "x " (id 1). -/
theorem c8_untrimmed_text_counterexample :
    (∃ f db2, updateFact envOk
        ⟨[⟨0, "old", 0, "c", none⟩], [⟨0, "x", []⟩, ⟨1, "x ", []⟩], 1, 2⟩
        "c" 0 "x " = .ok (f, db2) ∧ f.embedding_id = 0 ∧ f.text = "x") ∧
      (∃ emb db1, getEmbeddings envOk
        ⟨[⟨0, "old", 0, "c", none⟩], [⟨0, "x", []⟩, ⟨1, "x ", []⟩], 1, 2⟩
        "x " = .ok (emb, db1) ∧ emb.cachedEmbeddingId = 1) := by
  exact ⟨⟨_, _, rfl, rfl, rfl⟩, ⟨_, _, rfl, rfl⟩⟩

/-- C8 (amended: the text and the embedding are those of the *trimmed*
newText): a successful update preserves the fact's identity — the returned
fact carries the requested id — replaces only its text (with the trimmed
newText) and its embedding reference (with the embedding resolved for the
trimmed newText), and leaves the owning chapter, the page number and every
other fact of the store unchanged. -/
theorem c8_update_frame (env : Env) (db : DB) (chapterId : String)
    (factId : ℕ) (newText : String) (f : fact) (db2 : DB)
    (h : updateFact env db chapterId factId newText = .ok (f, db2)) :
    f.id = factId ∧ f.text = strTrim newText ∧
      (∃ old, db.facts.find?
          (fun g => g.id = factId && g.chapter_id = chapterId) = some old ∧
        f.chapter_id = old.chapter_id ∧ f.page_number = old.page_number ∧
        f.chapter_id = chapterId) ∧
      (∃ emb db1, getEmbeddings env db (strTrim newText) = .ok (emb, db1) ∧
        f.embedding_id = emb.cachedEmbeddingId ∧
        db2.facts = db1.facts.map (fun g =>
          if g.id = factId && g.chapter_id = chapterId then f else g)) ∧
      (∀ g ∈ db.facts, ¬(g.id = factId ∧ g.chapter_id = chapterId) →
        g ∈ db2.facts) := by
  unfold updateFact at h
  cases hemb : getEmbeddings env db (strTrim newText) with
  | error e => rw [hemb] at h; cases h
  | ok out =>
      obtain ⟨emb, db1⟩ := out
      rw [hemb] at h
      dsimp only at h
      have hfacts := (getEmbeddings_facts hemb).1
      unfold updateFactQuery at h
      cases hfind : db1.facts.find?
          (fun g => g.id = factId && g.chapter_id = chapterId) with
      | none =>
          rw [hfind] at h
          dsimp only at h
          cases h
      | some old =>
          rw [hfind] at h
          dsimp only at h
          cases h
          have hpred := List.find?_some hfind
          rw [Bool.and_eq_true, decide_eq_true_eq, decide_eq_true_eq] at hpred
          refine ⟨hpred.1, rfl, ?_, ?_, ?_⟩
          · refine ⟨old, ?_, rfl, rfl, hpred.2⟩
            rw [← hfacts]
            exact hfind
          · exact ⟨emb, db1, rfl, rfl, rfl⟩
          · intro g hg hgnot
            have hg1 : g ∈ db1.facts := by rw [hfacts]; exact hg
            have hcond : (g.id = factId && g.chapter_id = chapterId) = false := by
              rw [Bool.and_eq_false_iff]
              by_cases h1 : g.id = factId
              · right
                simp only [decide_eq_false_iff_not]
                intro h2
                exact hgnot ⟨h1, h2⟩
              · left
                simp only [decide_eq_false_iff_not]
                exact h1
            refine List.mem_map.mpr ⟨g, hg1, ?_⟩
            rw [hcond]
            rfl

/-- C8 witness: the amended theorem applied to a concrete successful
update. -/
theorem c8_update_frame_witness :
    (⟨0, "x", 0, "c", none⟩ : fact).id = 0 ∧
      (⟨0, "x", 0, "c", none⟩ : fact).text = strTrim "x" := by
  have h := c8_update_frame envOk
    ⟨[⟨0, "old", 0, "c", none⟩], [⟨0, "x", []⟩], 1, 1⟩ "c" 0 "x"
    ⟨0, "x", 0, "c", none⟩ ⟨[⟨0, "x", 0, "c", none⟩], [⟨0, "x", []⟩], 1, 1⟩ rfl
  exact ⟨h.1, h.2.1⟩

end ErrorAndUpdateClaims

/-!
Claim C6 — duplicate suppression of `addFactIfNew`.
-/

section DedupClaims

theorem getEmbeddings_text {env : Env} {db : DB} {t : String}
    {emb : TextEmbedding} {db1 : DB}
    (h : getEmbeddings env db t = .ok (emb, db1)) : emb.text = t := by
  unfold getEmbeddings at h
  cases hf : db.cache.find? (fun e => e.text = t) with
  | some e => rw [hf] at h; cases h; rfl
  | none =>
      rw [hf] at h
      cases hv : env.embedVec t with
      | error msg => rw [hv] at h; cases h
      | ok v => rw [hv] at h; cases h; rfl

theorem getEmbeddings_total (env : Env) (db : DB) (t : String)
    (hsvc : ∀ s, ∃ v, env.embedVec s = .ok v) :
    ∃ emb db1, getEmbeddings env db t = .ok (emb, db1) := by
  unfold getEmbeddings
  cases hf : db.cache.find? (fun e => e.text = t) with
  | some e => exact ⟨⟨t, e.vec, e.id⟩, db, rfl⟩
  | none =>
      obtain ⟨v, hv⟩ := hsvc t
      rw [hv]
      exact ⟨_, _, rfl⟩

theorem joinRows_getEmbeddings {env : Env} {db : DB} {t : String}
    {emb : TextEmbedding} {db1 : DB}
    (hW : ∀ f ∈ db.facts, f.embedding_id < db.nextCacheId)
    (h : getEmbeddings env db t = .ok (emb, db1)) :
    joinRows db1 = joinRows db := by
  unfold getEmbeddings at h
  cases hf : db.cache.find? (fun e => e.text = t) with
  | some e => rw [hf] at h; cases h; rfl
  | none =>
      rw [hf] at h
      cases hv : env.embedVec t with
      | error msg => rw [hv] at h; cases h
      | ok v =>
          rw [hv] at h
          cases h
          unfold joinRows
          refine List.filterMap_congr ?_
          intro f hf2
          rw [List.find?_append]
          have hne : (([⟨db.nextCacheId, t, v⟩] :
              List CacheEntry).find? (fun e => e.id = f.embedding_id)) = none := by
            have hlt := hW f hf2
            have hd : decide ((⟨db.nextCacheId, t, v⟩ : CacheEntry).id =
                f.embedding_id) = false := by
              simp only [decide_eq_false_iff_not]
              intro h0
              omega
            simp [List.find?_cons, hd]
          rw [hne, Option.or_none]

theorem searchFactsQuery_facts_nil {ι : Type} [LinearOrder ι]
    (simFn : List ℚ → ℚ) (rows : List (FactRow ι)) (m : ℚ) (limit : ℕ)
    (hl : 1 ≤ limit) :
    ((searchFactsQuery simFn rows m limit none).facts = [] ↔
      ∀ r ∈ rows, ¬ (m ≤ simFn r.vec)) := by
  rw [searchFactsQuery_facts]
  rw [List.map_eq_nil_iff]
  constructor
  · intro hnil r hr hm
    have hS : sortedRows simFn rows m none = [] := by
      rcases List.take_eq_nil_iff.mp hnil with h0 | h0
      · omega
      · exact h0
    have hmem := (mem_sortedRows_none simFn rows m r).mpr ⟨hr, hm⟩
    rw [hS] at hmem
    exact absurd hmem (List.not_mem_nil r)
  · intro hnone
    have hS : sortedRows simFn rows m none = [] := by
      cases hS2 : sortedRows simFn rows m none with
      | nil => rfl
      | cons a l =>
          have hmem : a ∈ sortedRows simFn rows m none := by
            rw [hS2]; exact List.mem_cons_self a l
          have h2 := (mem_sortedRows_none simFn rows m a).mp hmem
          exact absurd h2.2 (hnone a h2.1)
    rw [hS]
    exact List.take_nil

theorem factExists_eq {env : Env} {db : DB} {text : String} (similarity : ℚ)
    {emb : TextEmbedding} {db1 : DB}
    (hW : ∀ f ∈ db.facts, f.embedding_id < db.nextCacheId)
    (htext : text ≠ "") (hdb : env.searchDbFails = false)
    (hemb : getEmbeddings env db text = .ok (emb, db1)) :
    factExists env db text similarity =
      (decide (∃ r ∈ joinRows db, similarity ≤ env.sim emb.vec r.vec), db1) := by
  unfold factExists findSimilarFacts searchFacts
  simp only []
  rw [if_neg htext, hemb]
  unfold searchFactsQueryE
  rw [hdb]
  simp only [Bool.false_eq_true, if_neg, ite_false]
  rw [joinRows_getEmbeddings hW hemb]
  have hchar := searchFactsQuery_facts_nil (env.sim emb.vec) (joinRows db)
    similarity 1 le_rfl
  refine Prod.ext ?_ rfl
  dsimp only
  rw [Bool.eq_iff_iff]
  simp only [Bool.not_eq_true', List.isEmpty_eq_false, ne_eq, decide_eq_true_eq]
  constructor
  · intro hne
    by_contra hnot
    push_neg at hnot
    exact hne (hchar.mpr (fun r hr => not_le.mpr (hnot r hr)))
  · intro ⟨r, hr, hm⟩ hnil
    exact (hchar.mp hnil r hr) hm

/-- C6: addFactIfNew suppresses the insertion and returns nothing iff
factExists — evaluated with the caller-passed threshold, not the 0.95
default — reports a stored fact whose similarity to the query embedding
reaches that threshold; otherwise it inserts the fact and returns it.  On
suppression the fact store is unchanged (only the query-embedding cache may
grow); on insertion exactly the one new fact is appended. -/
theorem c6_addFactIfNew_suppression (env : Env) (db : DB)
    (chapterId text : String) (similarity : ℚ)
    (hW : ∀ f ∈ db.facts, f.embedding_id < db.nextCacheId)
    (htext : text ≠ "") (hdb : env.searchDbFails = false)
    (hsvc : ∀ s, ∃ v, env.embedVec s = .ok v) :
    ∃ emb db1, getEmbeddings env db text = .ok (emb, db1) ∧
      db1.facts = db.facts ∧
      ((∃ r ∈ joinRows db, similarity ≤ env.sim emb.vec r.vec) →
        addFactIfNew env db chapterId text similarity = .ok (none, db1)) ∧
      (¬ (∃ r ∈ joinRows db, similarity ≤ env.sim emb.vec r.vec) →
        ∃ f db2, addFactIfNew env db chapterId text similarity =
            .ok (some f, db2) ∧
          f.text = strTrim text ∧ f.chapter_id = chapterId ∧
          db2.facts = db1.facts ++ [f]) := by
  obtain ⟨emb, db1, hemb⟩ := getEmbeddings_total env db text hsvc
  have hfacts1 := (getEmbeddings_facts hemb).1
  have hex := factExists_eq similarity hW htext hdb hemb
  refine ⟨emb, db1, hemb, hfacts1, ?_, ?_⟩
  · intro hexists
    unfold addFactIfNew
    rw [hex]
    dsimp only
    rw [if_pos (decide_eq_true hexists)]
  · intro hnot
    unfold addFactIfNew
    rw [hex]
    dsimp only
    rw [if_neg (by simpa using hnot)]
    obtain ⟨emb2, db1x, hemb2⟩ := getEmbeddings_total env db1 (strTrim text) hsvc
    unfold addFact
    rw [hemb2]
    dsimp only
    have hfacts2 := (getEmbeddings_facts hemb2).1
    have htext2 := getEmbeddings_text hemb2
    refine ⟨⟨db1x.nextFactId, emb2.text, emb2.cachedEmbeddingId, chapterId, none⟩,
      _, rfl, htext2, rfl, ?_⟩
    unfold addFactQuery
    dsimp only
    rw [hfacts2]

/-- C6 witness: on an empty store with threshold 1 no stored fact can
match, so the fact is inserted. -/
theorem c6_addFactIfNew_suppression_witness :
    ∃ f db2, addFactIfNew envOk ⟨[], [], 0, 0⟩ "c" "t" 1 = .ok (some f, db2) := by
  have h := c6_addFactIfNew_suppression envOk ⟨[], [], 0, 0⟩ "c" "t" 1
    (by intro f hf; exact absurd hf (List.not_mem_nil f)) (by decide) rfl
    (fun s => ⟨[], rfl⟩)
  obtain ⟨emb, db1, hemb, hfacts, hsupp, hins⟩ := h
  obtain ⟨f, db2, heq, _, _, _⟩ := hins (by
    rintro ⟨r, hr, hm⟩
    simp [joinRows] at hr)
  exact ⟨f, db2, heq⟩

end DedupClaims

/-!
Claim C5 — idempotence of the second upsert.  Supporting lemmas first:
state characterizations of the batch embedding resolution, the insert
query, and the update loop.
-/

section UpsertLemmas

theorem getManyEmbeddings_ok {env : Env} :
    ∀ {ts : List String} {db : DB} {es : List TextEmbedding} {db1 : DB},
      getManyEmbeddings env db ts = .ok (es, db1) →
      es.map TextEmbedding.text = ts ∧ db1.facts = db.facts ∧
        db1.nextFactId = db.nextFactId
  | [], db, es, db1, h => by
      unfold getManyEmbeddings at h
      cases h
      exact ⟨rfl, rfl, rfl⟩
  | t :: ts, db, es, db1, h => by
      unfold getManyEmbeddings at h
      cases hA : getEmbeddings env db t with
      | error e => rw [hA] at h; cases h
      | ok outA =>
          obtain ⟨emb, dbA⟩ := outA
          rw [hA] at h
          dsimp only at h
          cases hB : getManyEmbeddings env dbA ts with
          | error e => rw [hB] at h; cases h
          | ok outB =>
              obtain ⟨embs, dbB⟩ := outB
              rw [hB] at h
              dsimp only at h
              cases h
              obtain ⟨hmap, hfacts, hnf⟩ := getManyEmbeddings_ok hB
              obtain ⟨hfactsA, hnfA⟩ := getEmbeddings_facts hA
              refine ⟨?_, hfacts.trans hfactsA, hnf.trans hnfA⟩
              rw [List.map_cons, hmap, getEmbeddings_text hA]

theorem createFacts_map_text :
    ∀ (s : ℕ) (c : String) (es : List TextEmbedding),
      (createFacts s c es).map fact.text = es.map TextEmbedding.text
  | _, _, [] => rfl
  | s, c, e :: es => by
      simp only [createFacts, List.map_cons]
      rw [createFacts_map_text (s + 1) c es]

theorem createFacts_mem :
    ∀ {s : ℕ} {c : String} {es : List TextEmbedding} {f : fact},
      f ∈ createFacts s c es → f.chapter_id = c ∧ s ≤ f.id
  | s, c, e :: es, f, h => by
      simp only [createFacts, List.mem_cons] at h
      rcases h with h | h
      · subst h
        exact ⟨rfl, le_rfl⟩
      · have h2 := createFacts_mem h
        exact ⟨h2.1, le_trans (Nat.le_succ s) h2.2⟩

theorem addFacts_ok {env : Env} {db : DB} {c : String} {ts : List String}
    {fs : List fact} {db1 : DB} (h : addFacts env db c ts = .ok (fs, db1)) :
    ∃ es, es.map TextEmbedding.text = ts ∧
      db1.facts = db.facts ++ createFacts db.nextFactId c es ∧
      db.nextFactId ≤ db1.nextFactId := by
  unfold addFacts at h
  by_cases hlen : ts.length = 0
  · rw [if_pos hlen] at h
    cases h
    refine ⟨[], ?_, (List.append_nil _).symm, le_rfl⟩
    rw [List.eq_nil_of_length_eq_zero hlen]
    rfl
  · rw [if_neg hlen] at h
    cases hm : getManyEmbeddings env db ts with
    | error e => rw [hm] at h; cases h
    | ok out =>
        obtain ⟨es, dbA⟩ := out
        rw [hm] at h
        dsimp only at h
        cases h
        obtain ⟨hmap, hfacts, hnf⟩ := getManyEmbeddings_ok hm
        refine ⟨es, hmap, ?_, ?_⟩
        · unfold addFactsQuery
          dsimp only
          rw [hfacts, hnf]
        · unfold addFactsQuery
          dsimp only
          rw [hnf]
          exact Nat.le_add_right _ _

theorem updateFact_ok {env : Env} {db : DB} {c : String} {i : ℕ} {t : String}
    {f : fact} {db1 : DB} (h : updateFact env db c i t = .ok (f, db1)) :
    f.id = i ∧ f.chapter_id = c ∧ f.text = strTrim t ∧
      db1.facts = db.facts.map (fun g =>
        if g.id = i && g.chapter_id = c then f else g) ∧
      db1.nextFactId = db.nextFactId ∧
      (∃ g0 ∈ db.facts, g0.id = i ∧ g0.chapter_id = c) := by
  unfold updateFact at h
  cases hemb : getEmbeddings env db (strTrim t) with
  | error e => rw [hemb] at h; cases h
  | ok out =>
      obtain ⟨emb, dbA⟩ := out
      rw [hemb] at h
      dsimp only at h
      obtain ⟨hfactsA, hnfA⟩ := getEmbeddings_facts hemb
      unfold updateFactQuery at h
      cases hfind : dbA.facts.find? (fun g => g.id = i && g.chapter_id = c) with
      | none =>
          rw [hfind] at h
          dsimp only at h
          cases h
      | some old =>
          rw [hfind] at h
          dsimp only at h
          cases h
          have hpred := List.find?_some hfind
          rw [Bool.and_eq_true, decide_eq_true_eq, decide_eq_true_eq] at hpred
          have hmem := List.mem_of_find?_eq_some hfind
          rw [hfactsA] at hmem
          refine ⟨hpred.1, hpred.2, rfl, ?_, hnfA, old, hmem, hpred⟩
          rw [hfactsA]

theorem updateFacts_ok {env : Env} {c : String} :
    ∀ {pairs : List (ℕ × String)} {db : DB} {fs : List fact} {db1 : DB},
      updateFacts env c db pairs = .ok (fs, db1) →
      db1.facts.map fact.id = db.facts.map fact.id ∧
        db1.nextFactId = db.nextFactId ∧
        (∀ g ∈ db.facts, (∀ p ∈ pairs, ¬(g.id = p.1 ∧ g.chapter_id = c)) →
          g ∈ db1.facts) ∧
        ((pairs.map Prod.fst).Nodup →
          ∀ p ∈ pairs, ∃ g ∈ db1.facts, g.chapter_id = c ∧ g.text = strTrim p.2)
  | [], db, fs, db1, h => by
      unfold updateFacts at h
      cases h
      exact ⟨rfl, rfl, fun g hg _ => hg,
        fun _ p hp => absurd hp (List.not_mem_nil p)⟩
  | (i, t) :: rest, db, fs, db1, h => by
      unfold updateFacts at h
      cases hu : updateFact env db c i t with
      | error e => rw [hu] at h; cases h
      | ok outA =>
          obtain ⟨f, dbA⟩ := outA
          rw [hu] at h
          dsimp only at h
          cases hr : updateFacts env c dbA rest with
          | error e => rw [hr] at h; cases h
          | ok outB =>
              obtain ⟨fs2, dbB⟩ := outB
              rw [hr] at h
              dsimp only at h
              cases h
              obtain ⟨hfid, hfch, hftext, hfA, hnfA, g0, hg0, hg0id, hg0ch⟩ :=
                updateFact_ok hu
              obtain ⟨hidsB, hnfB, hframeB, hpresB⟩ := updateFacts_ok hr
              have hidsA : dbA.facts.map fact.id = db.facts.map fact.id := by
                rw [hfA, List.map_map]
                refine List.map_congr_left ?_
                intro g hg
                simp only [Function.comp_apply]
                cases hcond : (g.id = i && g.chapter_id = c) with
                | true =>
                    rw [if_pos rfl]
                    have h2 := hcond
                    rw [Bool.and_eq_true, decide_eq_true_eq,
                      decide_eq_true_eq] at h2
                    rw [hfid, h2.1]
                | false =>
                    rw [if_neg (by simp)]
              refine ⟨hidsB.trans hidsA, hnfB.trans hnfA, ?_, ?_⟩
              · intro g hg hnot
                have hcond : (g.id = i && g.chapter_id = c) = false := by
                  rw [Bool.and_eq_false_iff]
                  by_cases h1 : g.id = i
                  · right
                    simp only [decide_eq_false_iff_not]
                    intro h2
                    exact hnot (i, t) (List.mem_cons_self _ _) ⟨h1, h2⟩
                  · left
                    simp only [decide_eq_false_iff_not]
                    exact h1
                have hgA : g ∈ dbA.facts := by
                  rw [hfA]
                  refine List.mem_map.mpr ⟨g, hg, ?_⟩
                  rw [hcond]
                  rfl
                exact hframeB g hgA
                  (fun p hp => hnot p (List.mem_cons_of_mem _ hp))
              · intro hpnd p hp
                have hnd2 := List.nodup_cons.mp hpnd
                rcases List.mem_cons.mp hp with hph | hpt
                · subst hph
                  have hfinA : f ∈ dbA.facts := by
                    rw [hfA]
                    refine List.mem_map.mpr ⟨g0, hg0, ?_⟩
                    rw [if_pos]
                    rw [Bool.and_eq_true, decide_eq_true_eq, decide_eq_true_eq]
                    exact ⟨hg0id, hg0ch⟩
                  have hfinB : f ∈ db1.facts := by
                    refine hframeB f hfinA ?_
                    intro q hq hfq
                    have : q.1 ∈ rest.map Prod.fst := List.mem_map_of_mem _ hq
                    rw [← hfq.1, hfid] at this
                    exact hnd2.1 this
                  exact ⟨f, hfinB, hfch, hftext⟩
                · exact hpresB hnd2.2 p hpt

theorem deleteFacts_nil (c : String) (db : DB) :
    deleteFacts c db [] = .ok db := rfl

theorem strTrim_formfeed : strTrim "x\x0C" = "x" := by decide

theorem strTrim_nbsp : strTrim "x\u00A0" = "x" := by decide

theorem strTrim_vtab_lead : strTrim "\x0Bx" = "x" := by decide

theorem strTrim_space_tail : strTrim "x " = "x" := by decide

end UpsertLemmas

section UpsertDecomposition

theorem upsertFacts_ok_decomp {env : Env} {db : DB} {c : String}
    {T : List String} {wd : Bool} {r : List fact} {db1 : DB}
    (hTne : ¬ T.length = 0)
    (h : upsertFacts env db c T wd = .ok (r, db1)) :
    ∃ new dbA upd,
      addFacts env db c (newFactsOf db c T) = .ok (new, dbA) ∧
      updateFacts env c dbA (((getFacts db c T).filter
        (fun f => (updatedFactsOf db c T).contains f.text)).map
          (fun f => (f.id, f.text))) = .ok (upd, db1) ∧
      r = new ++ upd := by
  have hTnil : T ≠ [] := fun h0 => hTne (by rw [h0]; rfl)
  unfold upsertFacts at h
  rw [if_neg hTne] at h
  simp only [] at h
  cases hadd : addFacts env db c (newFactsOf db c T) with
  | error e => rw [hadd] at h; cases h
  | ok outA =>
      obtain ⟨new, dbA⟩ := outA
      rw [hadd] at h
      dsimp only at h
      cases hupd : updateFacts env c dbA (((getFacts db c T).filter
          (fun f => (updatedFactsOf db c T).contains f.text)).map
            (fun f => (f.id, f.text))) with
      | error e => rw [hupd] at h; cases h
      | ok outB =>
          obtain ⟨upd, dbB⟩ := outB
          rw [hupd] at h
          dsimp only at h
          cases wd with
          | false =>
              rw [if_neg (by simp)] at h
              cases h
              exact ⟨new, dbA, upd, rfl, hupd, rfl⟩
          | true =>
              rw [if_pos rfl] at h
              rw [deletedFactsOf_eq_nil db c T hTnil] at h
              simp only [List.map_nil] at h
              rw [deleteFacts_nil] at h
              dsimp only at h
              cases h
              exact ⟨new, dbA, upd, rfl, hupd, rfl⟩

theorem upsertFacts_presence {env : Env} {db : DB} {c : String}
    {T : List String} {wd : Bool} {r : List fact} {db1 : DB}
    (hnd : (db.facts.map fact.id).Nodup)
    (hbound : ∀ f ∈ db.facts, f.id < db.nextFactId)
    (hT : ∀ t ∈ T, strTrim t = t)
    (h : upsertFacts env db c T wd = .ok (r, db1)) :
    ∀ t ∈ T, ∃ f ∈ db1.facts, f.chapter_id = c ∧ f.text = t := by
  by_cases hTne : T.length = 0
  · intro t ht
    rw [List.eq_nil_of_length_eq_zero hTne] at ht
    exact absurd ht (List.not_mem_nil t)
  · obtain ⟨new, dbA, upd, hadd, hupd, _⟩ := upsertFacts_ok_decomp hTne h
    obtain ⟨es, hestext, hfactsA, hnfA⟩ := addFacts_ok hadd
    obtain ⟨hidsB, hnfB, hframeB, hpresB⟩ := updateFacts_ok hupd
    have hie : T.isEmpty = false := by
      cases T with
      | nil => exact absurd rfl hTne
      | cons a l => rfl
    have hpairs_nd : ((((getFacts db c T).filter
        (fun f => (updatedFactsOf db c T).contains f.text)).map
          (fun f => (f.id, f.text))).map Prod.fst).Nodup := by
      rw [List.map_map]
      have hsub : ((getFacts db c T).filter
          (fun f => (updatedFactsOf db c T).contains f.text)).Sublist db.facts := by
        refine List.Sublist.trans (List.filter_sublist _) ?_
        unfold getFacts
        exact List.filter_sublist _
      have : (Prod.fst ∘ fun f : fact => (f.id, f.text)) = fact.id := rfl
      rw [this]
      exact (hsub.map fact.id).nodup hnd
    intro t ht
    by_cases hany : (getFacts db c T).any (fun f => f.text = t) = true
    · obtain ⟨f0, hf0, hf0t⟩ := List.any_eq_true.mp hany
      rw [decide_eq_true_eq] at hf0t
      have htmem : t ∈ updatedFactsOf db c T := by
        unfold updatedFactsOf
        rw [List.mem_filter]
        exact ⟨ht, hany⟩
      have hp0 : (f0.id, f0.text) ∈ ((getFacts db c T).filter
          (fun f => (updatedFactsOf db c T).contains f.text)).map
            (fun f => (f.id, f.text)) := by
        refine List.mem_map_of_mem _ ?_
        rw [List.mem_filter]
        refine ⟨hf0, ?_⟩
        rw [hf0t]
        simp [htmem]
      obtain ⟨g, hg, hgch, hgtext⟩ := hpresB hpairs_nd (f0.id, f0.text) hp0
      refine ⟨g, hg, hgch, ?_⟩
      rw [hgtext]
      dsimp only
      rw [hf0t]
      exact hT t ht
    · have htnew : t ∈ newFactsOf db c T := by
        unfold newFactsOf
        rw [List.mem_filter]
        refine ⟨ht, ?_⟩
        simp only [Bool.not_eq_true] at hany ⊢
        rw [hany]
        rfl
      have htes : t ∈ (createFacts db.nextFactId c es).map fact.text := by
        rw [createFacts_map_text, hestext]
        exact htnew
      obtain ⟨r0, hr0, hr0t⟩ := List.mem_map.mp htes
      have hr0A : r0 ∈ dbA.facts := by
        rw [hfactsA]
        exact List.mem_append.mpr (Or.inr hr0)
      have hr0mem := createFacts_mem hr0
      have hr0B : r0 ∈ db1.facts := by
        refine hframeB r0 hr0A ?_
        intro p hp hpr
        obtain ⟨f1, hf1, hf1p⟩ := List.mem_map.mp hp
        rw [List.mem_filter] at hf1
        have hf1db : f1 ∈ db.facts := by
          have := hf1.1
          unfold getFacts at this
          exact (List.mem_filter.mp this).1
        have hf1lt := hbound f1 hf1db
        have : p.1 = f1.id := by rw [← hf1p]
        rw [this] at hpr
        have := hr0mem.2
        omega
      exact ⟨r0, hr0B, hr0mem.1, hr0t⟩

end UpsertDecomposition

section IdempotenceClaims

/-- C5, counterexample to the claim as stated: with a stored fact whose
text carries trailing whitespace and the same text in T, the first upsert
re-stores the text trimmed, so the second upsert classifies the original
text as new again and inserts a fresh fact — the second call performs one
insertion, not zero. -/
theorem c5_untrimmed_counterexample :
    ∃ r1 db1 r2 db2,
      upsertFacts envOk ⟨[⟨0, "x ", 0, "c", none⟩], [⟨0, "x ", []⟩], 1, 1⟩
          "c" ["x "] true = .ok (r1, db1) ∧
        upsertFacts envOk db1 "c" ["x "] true = .ok (r2, db2) ∧
        newFactsOf db1 "c" ["x "] = ["x "] ∧
        db2.facts.length = db1.facts.length + 1 := by
  refine ⟨[⟨0, "x", 1, "c", none⟩],
    ⟨[⟨0, "x", 1, "c", none⟩], [⟨0, "x ", []⟩, ⟨1, "x", []⟩], 1, 2⟩,
    [⟨1, "x ", 0, "c", none⟩],
    ⟨[⟨0, "x", 1, "c", none⟩, ⟨1, "x ", 0, "c", none⟩],
      [⟨0, "x ", []⟩, ⟨1, "x", []⟩], 2, 2⟩, ?_, ?_, ?_, ?_⟩
  · rfl
  · rfl
  · rfl
  · rfl

/-- C5 (amended: the desired texts must be trim-invariant and the store
well-formed, with distinct fact ids below the id supply): after a first
successful `upsert(chapterId, T)`, every text of T is stored for the
chapter, so an immediately repeated `upsert(chapterId, T)` classifies every
text as unchanged: its `newFacts` and `deletedFacts` partitions are both
empty — zero insertions and zero deletions — and any successful second run
preserves the stored fact ids exactly. -/
theorem c5_second_upsert_noop (env : Env) (db : DB) (c : String)
    (T : List String) (wd : Bool)
    (hnd : (db.facts.map fact.id).Nodup)
    (hbound : ∀ f ∈ db.facts, f.id < db.nextFactId)
    (hT : ∀ t ∈ T, strTrim t = t)
    (r1 : List fact) (db1 : DB)
    (h1 : upsertFacts env db c T wd = .ok (r1, db1)) :
    (T ≠ [] → newFactsOf db1 c T = [] ∧ deletedFactsOf db1 c T = []) ∧
      (∀ wd2 r2 db2, upsertFacts env db1 c T wd2 = .ok (r2, db2) →
        db2.facts.map fact.id = db1.facts.map fact.id) := by
  have hpres := upsertFacts_presence hnd hbound hT h1
  have hany : ∀ t ∈ T, (getFacts db1 c T).any (fun f => f.text = t) = true := by
    intro t ht
    obtain ⟨f, hf, hfc, hft⟩ := hpres t ht
    refine List.any_eq_true.mpr ⟨f, ?_, by simp [hft]⟩
    unfold getFacts
    rw [List.mem_filter]
    refine ⟨hf, ?_⟩
    simp only [Bool.and_eq_true, decide_eq_true_eq, Bool.or_eq_true]
    refine ⟨hfc, Or.inr ?_⟩
    rw [hft]
    simp [ht]
  have hnew : T ≠ [] → newFactsOf db1 c T = [] := by
    intro hTnil
    unfold newFactsOf
    refine List.filter_eq_nil_iff.mpr ?_
    intro t ht
    rw [hany t ht]
    simp
  refine ⟨fun hTnil => ⟨hnew hTnil, deletedFactsOf_eq_nil db1 c T hTnil⟩, ?_⟩
  intro wd2 r2 db2 h2
  by_cases hTne : T.length = 0
  · unfold upsertFacts at h2
    rw [if_pos hTne] at h2
    cases h2
    rfl
  · have hTnil : T ≠ [] := fun h0 => hTne (by rw [h0]; rfl)
    obtain ⟨new2, dbA2, upd2, hadd2, hupd2, _⟩ := upsertFacts_ok_decomp hTne h2
    obtain ⟨es2, hestext2, hfactsA2, _⟩ := addFacts_ok hadd2
    have hes2 : es2 = [] := by
      rw [hnew hTnil] at hestext2
      exact List.map_eq_nil_iff.mp hestext2
    have hfA2 : dbA2.facts = db1.facts := by
      rw [hfactsA2, hes2]
      exact List.append_nil _
    obtain ⟨hids2, _, _, _⟩ := updateFacts_ok hupd2
    rw [hids2, hfA2]

/-- C5 witness: the amended theorem applied to a fresh store and T = ["x"]:
the second call's partitions are empty. -/
theorem c5_second_upsert_noop_witness :
    newFactsOf ⟨[⟨0, "x", 0, "c", none⟩], [⟨0, "x", []⟩], 1, 1⟩ "c" ["x"] = [] ∧
      deletedFactsOf ⟨[⟨0, "x", 0, "c", none⟩], [⟨0, "x", []⟩], 1, 1⟩ "c" ["x"]
        = [] := by
  have h := c5_second_upsert_noop envOk ⟨[], [], 0, 0⟩ "c" ["x"] true
    (by simp) (fun f hf => absurd hf (List.not_mem_nil f))
    (by intro t ht; rw [List.mem_singleton] at ht; subst ht; rfl)
    [⟨0, "x", 0, "c", none⟩] ⟨[⟨0, "x", 0, "c", none⟩], [⟨0, "x", []⟩], 1, 1⟩
    rfl
  exact h.1 (by simp)

end IdempotenceClaims
